import Mathlib

/-!
Verification development for the KPM Style 5 malicious-UE detection xApp
(`malicious_detector_ml.py`).  The pipeline buffers per-UE telemetry rows,
feature-engineers them with pandas (epsilon-guarded ratios, per-group causal
rolling mean/std), and runs a two-stage cascaded classifier whose per-row
labels are aggregated into one verdict per UE.

The embedding below models pandas DataFrames as lists of association-list
rows plus an explicit column list, with cells that are numbers, strings, or
NaN (covering NaN/NaT/Inf, all of which are non-finite sentinels for the
properties considered here).  Fallible Python operations (KeyError on a
missing column, AttributeError on `None.predict`, IndexError on label
decoding) are modelled with `Except`.
-/

namespace XApp

/-- A pandas cell: a (rational) number, a string, or the NaN/NaT sentinel.
Floating-point non-finite values (NaN and ±Inf) are both modelled by `nan`,
since the claims only distinguish finite numbers from non-finite ones. -/
inductive Cell where
  | num (q : ℚ)
  | str (s : String)
  | nan
deriving DecidableEq

/-- A DataFrame row, as the Python side builds it: a dict from column name
to value (association list in insertion order). -/
abbrev Row := List (String × Cell)

/-- A pandas DataFrame: ordered column labels plus rows. -/
structure DF where
  cols : List String
  rows : List Row
deriving DecidableEq

/-- Python-exception classes raised by the modelled operations. -/
inductive PyErr where
  | keyError (c : String)
  | attributeError
  | indexError
deriving DecidableEq

/-- Read one cell of a row by column name (missing key in a dict-built frame
shows up as NaN in pandas, hence the `nan` default). -/
def rowGet (r : Row) (c : String) : Cell :=
  match r.find? (fun p => p.1 == c) with
  | some p => p.2
  | none => Cell.nan

/-- Set (or append) one cell of a row. -/
def rowSet (r : Row) (c : String) (v : Cell) : Row :=
  if r.any (fun p => p.1 == c) then
    r.map (fun p => if p.1 == c then (p.1, v) else p)
  else r ++ [(c, v)]

/-- `df[c]`: reading a whole column raises `KeyError` when the label is not
among the frame's columns (pandas `__getitem__`). -/
def DF.getCol (df : DF) (c : String) : Except PyErr (List Cell) :=
  if c ∈ df.cols then .ok (df.rows.map (fun r => rowGet r c)) else .error (.keyError c)

/-- `df[c] = vs`: column assignment (adds the label if new). -/
def DF.setCol (df : DF) (c : String) (vs : List Cell) : DF :=
  { cols := if c ∈ df.cols then df.cols else df.cols ++ [c],
    rows := df.rows.zipWith (fun r v => rowSet r c v) vs }

/-! ### Cell arithmetic (numpy/pandas float semantics)

Any operation touching NaN propagates NaN; float division by zero yields a
non-finite value (Inf or NaN), both modelled as `nan`. -/

def cellAdd : Cell → Cell → Cell
  | .num a, .num b => .num (a + b)
  | _, _ => .nan

def cellSub : Cell → Cell → Cell
  | .num a, .num b => .num (a - b)
  | _, _ => .nan

def cellDiv : Cell → Cell → Cell
  | .num a, .num b => if b = 0 then .nan else .num (a / b)
  | _, _ => .nan

def cellAbs : Cell → Cell
  | .num a => .num |a|
  | _ => .nan

/-- `cell == 0` in pandas: NaN compares unequal to everything. -/
def cellIsZero : Cell → Bool
  | .num a => a == 0
  | _ => false

/-- `cell < t` in pandas: comparisons against NaN are false. -/
def cellLtConst (c : Cell) (t : ℚ) : Bool :=
  match c with
  | .num a => a < t
  | _ => false

/-- `pd.to_datetime(·, errors='coerce')`: timestamps are taken as numeric
instants (nanoseconds since the epoch, the `datetime64[ns]` payload);
anything unparseable becomes NaT (`nan`).  The ISO-8601 strings produced
upstream by `datetime.now().isoformat()` parse to such instants; the model
works with the already-parsed numeric value. -/
def toDatetimeCell : Cell → Cell
  | .num q => .num q
  | _ => .nan

/-- `pd.to_numeric(·, errors='coerce')` on one cell: numbers pass through,
integer-literal strings parse, anything else coerces to NaN. -/
def toNumericCell : Cell → Cell
  | .num q => .num q
  | .str s => match s.toInt? with
    | some n => .num n
    | none => .nan
  | .nan => .nan

/-- `df.fillna(0)` applied to every cell. -/
def fillnaCell : Cell → Cell
  | .nan => .num 0
  | c => c

/-- `.astype('int64') // 10**9` on a `datetime64[ns]` cell: floor-divide the
nanosecond count; NaT's int64 payload is `-2^63`. -/
def cellEpoch : Cell → Cell
  | .num q => .num (((⌊q⌋ : ℤ).fdiv (10 ^ 9) : ℤ) : ℚ)
  | _ => .num (((-(2 : ℤ) ^ 63).fdiv (10 ^ 9) : ℤ) : ℚ)

/-! ### Sorting and grouping -/

/-- Total comparison on cells used as sort keys: numbers by value, strings
lexicographically, with NaN/NaT ordered last (pandas `na_position='last'`);
distinct shapes are ranked `num < str < nan`. -/
def cellRank : Cell → ℕ
  | .num _ => 0
  | .str _ => 1
  | .nan => 2

def cellLeB : Cell → Cell → Bool
  | .num a, .num b => decide (a ≤ b)
  | .str a, .str b => a == b || decide (a < b)
  | a, b => decide (cellRank a ≤ cellRank b)

/-- Lexicographic comparison of key tuples (lists of cells). -/
def keyLeB : List Cell → List Cell → Bool
  | [], _ => true
  | _ :: _, [] => false
  | a :: as, b :: bs => if a = b then keyLeB as bs else cellLeB a b

/-- Stable insertion into a sorted list (an element is placed before the
first strictly-later element, so original order is kept among equal keys). -/
def insertLe (le : α → α → Bool) (x : α) : List α → List α
  | [] => [x]
  | y :: ys => if le x y then x :: y :: ys else y :: insertLe le x ys

/-- Stable sort by a boolean comparison. -/
def sortLe (le : α → α → Bool) : List α → List α
  | [] => []
  | x :: xs => insertLe le x (sortLe le xs)

/-- The sort key of a row for `sort_values(by=["E2AgentID","UE_ID","Timestamp"])`. -/
def rowSortKey (by_ : List String) (r : Row) : List Cell :=
  by_.map (fun c => rowGet r c)

/-- `df.sort_values(by=...)`: KeyError when a sort column is missing. -/
def DF.sortValues (df : DF) (by_ : List String) : Except PyErr DF :=
  if by_.all (fun c => c ∈ df.cols) then
    .ok { df with rows := sortLe (fun r s => keyLeB (rowSortKey by_ r) (rowSortKey by_ s)) df.rows }
  else .error (.keyError "sort_values")

/-- First-occurrence deduplication (Python dict-key insertion order). -/
def dedupFirst [DecidableEq α] : List α → List α
  | [] => []
  | x :: xs => x :: (dedupFirst xs).filter (fun y => y ≠ x)

/-- The `(E2AgentID, UE_ID)` group key of a row. -/
def groupKeyOf (r : Row) : Cell × Cell :=
  (rowGet r "E2AgentID", rowGet r "UE_ID")

/-- `df.groupby(["E2AgentID","UE_ID"])` iterates groups with keys in
ascending sorted order (pandas `sort=True` default). -/
def groupKeys (rows : List Row) : List (Cell × Cell) :=
  sortLe (fun a b => keyLeB [a.1, a.2] [b.1, b.2]) (dedupFirst (rows.map groupKeyOf))

/-- The rows of one group, in frame order. -/
def groupRows (rows : List Row) (k : Cell × Cell) : List Row :=
  rows.filter (fun r => groupKeyOf r == k)

/-- `groupby([...])[col].diff()` realised row by row: each row's value minus
the previous value seen for the same group key (NaN for a group's first
row), walking the frame in order with a last-value table per key. -/
def groupDiffGo (col : String) : List Row → List ((Cell × Cell) × Cell) → List Cell
  | [], _ => []
  | r :: rs, seen =>
    let k := groupKeyOf r
    let v := rowGet r col
    let d := match seen.find? (fun p => p.1 == k) with
      | some p => cellSub v p.2
      | none => Cell.nan
    d :: groupDiffGo col rs ((k, v) :: seen)

def groupDiffCol (rows : List Row) (col : String) : List Cell :=
  groupDiffGo col rows []

/-! ### Causal rolling window statistics

`rolling(window=5, min_periods=1).agg(["mean","std"])`: at position `i` the
window is the last `min(i+1, w)` values; pandas computes over the non-NaN
observations of the window, returning NaN when fewer than `min_periods`
(here 1) observations are present; `std` uses the sample convention
(`ddof=1`) and is NaN whenever fewer than 2 observations are present. -/

/-- The finite (non-NaN) observations of the causal window ending at `i`. -/
def windowVals (w : ℕ) (vals : List Cell) (i : ℕ) : List ℚ :=
  ((vals.take (i + 1)).drop (i + 1 - w)).filterMap
    (fun c => match c with | .num q => some q | _ => none)

/-- Rolling mean at position `i` (NaN when the window holds no observation). -/
def rollMeanAt (w : ℕ) (vals : List Cell) (i : ℕ) : Cell :=
  let xs := windowVals w vals i
  if xs.length = 0 then .nan else .num (xs.sum / xs.length)

/-- Sample variance (`ddof=1`) of a list of rationals. -/
def sampleVar (xs : List ℚ) : ℚ :=
  let m := xs.sum / xs.length
  (xs.map (fun x => (x - m) ^ 2)).sum / (xs.length - 1 : ℚ)

/-- Rolling standard deviation at position `i`.  The source stores
`sqrt(sampleVar)`; since the square root of a finite non-negative number is
finite and of NaN is NaN, and no claim depends on the numeric magnitude of a
defined std, the model records the radicand.  A window with fewer than two
observations yields NaN (pandas `ddof=1`). -/
def rollStdAt (w : ℕ) (vals : List Cell) (i : ℕ) : Cell :=
  let xs := windowVals w vals i
  if xs.length < 2 then .nan else .num (sampleVar xs)

/-! ### Derived per-row features (`new_features` block, lines 104-122)

The pandas expressions are columnwise; with identically-indexed columns they
are exactly these cellwise operations mapped over rows. -/

/-- Additive denominator guard, `epsilon = 1e-5`. -/
def epsilon : ℚ := 1 / 100000

def prbUtilizationRatioDl (usedDl availDl : Cell) : Cell :=
  cellDiv usedDl (cellAdd availDl (.num epsilon))

def prbUtilizationRatioUl (usedUl availUl : Cell) : Cell :=
  cellDiv usedUl (cellAdd availUl (.num epsilon))

def ulPrbEfficiency (thpUl usedUl : Cell) : Cell :=
  cellDiv thpUl (cellAdd usedUl (.num epsilon))

def dlPrbEfficiency (thpDl usedDl : Cell) : Cell :=
  cellDiv thpDl (cellAdd usedDl (.num epsilon))

def resourceImbalance (ratioDl ratioUl : Cell) : Cell :=
  cellAbs (cellSub ratioDl ratioUl)

def signalQualityIndex (rsrp rsrq cqi : Cell) : Cell :=
  cellDiv (cellAdd (cellAdd rsrp rsrq) cqi) (.num 3)

def throughputAsymmetry (thpDl thpUl : Cell) : Cell :=
  cellDiv thpDl (cellAdd thpUl (.num epsilon))

def ulThroughputPerVolume (thpUl volUl : Cell) : Cell :=
  cellDiv thpUl (cellAdd volUl (.num epsilon))

def dlThroughputPerVolume (thpDl volDl : Cell) : Cell :=
  cellDiv thpDl (cellAdd volDl (.num epsilon))

def avgRlcDelay (delayDl delayUl : Cell) : Cell :=
  cellDiv (cellAdd delayDl delayUl) (.num 2)

def delayImbalance (delayDl delayUl : Cell) : Cell :=
  cellSub delayDl delayUl

def cqiNormalized (cqi : Cell) : Cell :=
  cellDiv cqi (.num 15)

def zeroPrbFlag (usedDl usedUl : Cell) : Cell :=
  .num (if cellIsZero usedDl && cellIsZero usedUl then 1 else 0)

def zeroThroughputFlag (thpDl thpUl : Cell) : Cell :=
  .num (if cellIsZero thpDl && cellIsZero thpUl then 1 else 0)

def poorSignalFlag (cqi rsrp rsrq : Cell) : Cell :=
  .num (if cellLtConst cqi 5 || cellLtConst rsrp (-110) || cellLtConst rsrq (-15) then 1 else 0)

/-! ### Feature lists (source lines 125-134) -/

def rolling_features_to_calculate : List String :=
  ["RRU.PrbUsedUl", "DRB.UEThpUl", "DRB.UEThpDl", "DRB.RlcSduTransmittedVolumeUL",
   "DRB.RlcSduTransmittedVolumeDL", "DRB.RlcSduDelayDl", "DRB.RlcDelayUl", "CQI", "RSRP",
   "UL_PRB_Efficiency", "DL_PRB_Efficiency", "UL_Throughput_per_Volume", "DL_Throughput_per_Volume",
   "Avg_RlcDelay", "Delay_Imbalance", "CQI_Normalized", "PRB_Utilization_Ratio_DL",
   "PRB_Utilization_Ratio_UL", "Resource_Imbalance", "Signal_Quality_Index",
   "Throughput_Asymmetry", "DelayJitterDl", "DelayJitterUl"]

def flag_features : List String :=
  ["Zero_PRB_Flag", "Zero_Throughput_Flag", "Poor_Signal_Flag"]

def all_features_to_roll : List String :=
  rolling_features_to_calculate ++ flag_features

/-- The CLI default `--metrics` list (source line 498), which is also the
set of metric columns each buffered row carries. -/
def default_metric_names : List String :=
  ["RRU.PrbAvailDl", "RRU.PrbAvailUl", "RRU.PrbUsedDl", "RRU.PrbUsedUl",
   "RACH.PreambleDedCell", "DRB.UEThpDl", "DRB.UEThpUl", "DRB.RlcPacketDropRateDl",
   "DRB.RlcSduTransmittedVolumeDL", "DRB.RlcSduTransmittedVolumeUL", "CQI", "RSRP",
   "RSRQ", "DRB.RlcSduDelayDl", "DRB.RlcDelayUl"]

/-- The column labels of one rolled group frame (`rolled_data`, lines
142-147): `<feature>_mean`/`<feature>_std` pairs in rolled-feature order,
then the re-attached identifier and timestamp columns. -/
def rolledCols : List String :=
  (all_features_to_roll.map (fun f => [f ++ "_mean", f ++ "_std"])).flatten
    ++ ["E2AgentID", "UE_ID", "Timestamp", "Timestamp_epoch"]

/-- One iteration of the per-group loop (lines 140-148): sort the group by
its `Timestamp` index, compute the causal rolling mean/std of every rolled
feature, and re-attach the group key, timestamps and epoch seconds.
Selecting `group[all_features_to_roll]` raises KeyError when a rolled
feature column is absent from the frame. -/
def rollGroup (dfCols : List String) (k : Cell × Cell) (grp : List Row) : Except PyErr DF :=
  if all_features_to_roll.all (fun c => c ∈ dfCols) then
    let g := sortLe (fun r s => cellLeB (rowGet r "Timestamp") (rowGet s "Timestamp")) grp
    .ok { cols := rolledCols,
          rows := (List.range g.length).map (fun i =>
            ((all_features_to_roll.map (fun f =>
              let vals := g.map (fun r => rowGet r f)
              [(f ++ "_mean", rollMeanAt 5 vals i), (f ++ "_std", rollStdAt 5 vals i)])).flatten)
            ++ [("E2AgentID", k.1), ("UE_ID", k.2),
                ("Timestamp", rowGet (g.getD i []) "Timestamp"),
                ("Timestamp_epoch", cellEpoch (rowGet (g.getD i []) "Timestamp"))]) }
  else .error (.keyError "all_features_to_roll")

/-- `pd.concat(final_dfs, ignore_index=True)`: all group frames share the
same column layout; rows are concatenated in group-key order. -/
def concatDFs (dfs : List DF) : DF :=
  { cols := match dfs with | [] => [] | d :: _ => d.cols,
    rows := (dfs.map DF.rows).flatten }

/-- `final_df.reindex(columns=selected_features, fill_value=0.0)`: with
`columns=None` (the value `self.selected_features` holds after `__init__`,
since no other assignment exists) the call leaves the frame unchanged; with
a column list it produces exactly those columns in that order, filling
columns absent from the frame with `0.0` and dropping the rest. -/
def reindex_columns (sel : Option (List String)) (df : DF) : DF :=
  match sel with
  | none => df
  | some cols =>
    { cols := cols,
      rows := df.rows.map (fun r =>
        cols.map (fun c => (c, if c ∈ df.cols then rowGet r c else .num 0))) }

/-- `KpmStyle5Xapp._feature_engineer_network_data` (lines 87-184).
`metric_names` and `selected_features` are the object fields read by the
method; the frame argument is the batch built from the buffer.  The leading
`df = cleaned_dataset.copy()` is why the later in-place `fillna` cannot
touch the caller's frame: the method only ever rebinds or mutates the copy,
so it is modelled as a pure function of its input. -/
def feature_engineer_network_data (metric_names : List String)
    (selected_features : Option (List String)) (cleaned_dataset : DF) :
    Except PyErr DF := do
  let df := cleaned_dataset
  -- df['Timestamp'] = pd.to_datetime(df['Timestamp'], errors='coerce')
  let ts ← df.getCol "Timestamp"
  let df := df.setCol "Timestamp" (ts.map toDatetimeCell)
  -- df = df.sort_values(by=["E2AgentID", "UE_ID", "Timestamp"])
  let df ← df.sortValues ["E2AgentID", "UE_ID", "Timestamp"]
  -- for col in metric_names: df[col] = pd.to_numeric(df[col], errors='coerce')
  let df ← metric_names.foldlM (fun (d : DF) c => do
      let col ← d.getCol c
      pure (d.setCol c (col.map toNumericCell))) df
  -- df.fillna(0, inplace=True)
  let df : DF := { df with rows := df.rows.map (fun r => r.map (fun p => (p.1, fillnaCell p.2))) }
  -- new_features = { ... }  (lines 104-122)
  let prbUsedDl ← df.getCol "RRU.PrbUsedDl"
  let prbAvailDl ← df.getCol "RRU.PrbAvailDl"
  let prbUsedUl ← df.getCol "RRU.PrbUsedUl"
  let prbAvailUl ← df.getCol "RRU.PrbAvailUl"
  let thpUl ← df.getCol "DRB.UEThpUl"
  let thpDl ← df.getCol "DRB.UEThpDl"
  let rsrp ← df.getCol "RSRP"
  let rsrq ← df.getCol "RSRQ"
  let cqi ← df.getCol "CQI"
  let volUl ← df.getCol "DRB.RlcSduTransmittedVolumeUL"
  let volDl ← df.getCol "DRB.RlcSduTransmittedVolumeDL"
  let delayDl ← df.getCol "DRB.RlcSduDelayDl"
  let delayUl ← df.getCol "DRB.RlcDelayUl"
  let tsCol ← df.getCol "Timestamp"
  let ratioDl := List.zipWith prbUtilizationRatioDl prbUsedDl prbAvailDl
  let ratioUl := List.zipWith prbUtilizationRatioUl prbUsedUl prbAvailUl
  let newFeatures : List (String × List Cell) :=
    [("PRB_Utilization_Ratio_DL", ratioDl),
     ("PRB_Utilization_Ratio_UL", ratioUl),
     ("UL_PRB_Efficiency", List.zipWith ulPrbEfficiency thpUl prbUsedUl),
     ("DL_PRB_Efficiency", List.zipWith dlPrbEfficiency thpDl prbUsedDl),
     ("Resource_Imbalance", List.zipWith resourceImbalance ratioDl ratioUl),
     ("Signal_Quality_Index", List.zipWith (fun a b => signalQualityIndex a.1 a.2 b) (rsrp.zip rsrq) cqi),
     ("Throughput_Asymmetry", List.zipWith throughputAsymmetry thpDl thpUl),
     ("UL_Throughput_per_Volume", List.zipWith ulThroughputPerVolume thpUl volUl),
     ("DL_Throughput_per_Volume", List.zipWith dlThroughputPerVolume thpDl volDl),
     ("Avg_RlcDelay", List.zipWith avgRlcDelay delayDl delayUl),
     ("Delay_Imbalance", List.zipWith delayImbalance delayDl delayUl),
     ("CQI_Normalized", cqi.map cqiNormalized),
     ("DelayJitterDl", (groupDiffCol df.rows "DRB.RlcSduDelayDl").map fillnaCell),
     ("DelayJitterUl", (groupDiffCol df.rows "DRB.RlcDelayUl").map fillnaCell),
     ("Zero_PRB_Flag", List.zipWith zeroPrbFlag prbUsedDl prbUsedUl),
     ("Zero_Throughput_Flag", List.zipWith zeroThroughputFlag thpDl thpUl),
     ("Poor_Signal_Flag", List.zipWith (fun a b => poorSignalFlag a.1 b a.2) (cqi.zip rsrq) rsrp),
     ("Timestamp_epoch", tsCol.map cellEpoch)]
  -- df = pd.concat([df, pd.DataFrame(new_features)], axis=1)
  let df := newFeatures.foldl (fun (d : DF) p => d.setCol p.1 p.2) df
  -- per-(E2AgentID, UE_ID) rolling loop (lines 136-148)
  let keys := groupKeys df.rows
  let finalDfs ← keys.mapM (fun k => rollGroup df.cols k (groupRows df.rows k))
  -- if not final_dfs: return pd.DataFrame()
  if finalDfs.isEmpty then
    return { cols := [], rows := [] }
  let final_df := concatDFs finalDfs
  -- final_df = final_df.reindex(columns=self.selected_features, fill_value=0.0)
  return reindex_columns selected_features final_df

/-! ### Cascaded classifier (`predict_cascaded`, lines 186-297)

Python strings are modelled as `List Char`, which keeps `startswith`,
`split("-", 1)[1]` and concatenation elementary. -/

/-- A per-row classification label such as "Malicious-udp_flood". -/
abbrev Label := List Char

/-- `self.le_malicious` (lines 30-38) — note the source list carries
`parallel_tcp_flood` twice, at indices 0 and 6. -/
def le_malicious : List Label :=
  ["parallel_tcp_flood".toList, "udp_fragmentation_flood".toList, "udp_flood".toList,
   "small_packet_flood".toList, "pulsing_udp_flood".toList, "parallel_udp_flood".toList,
   "parallel_tcp_flood".toList]

/-- `self.le_benign` (lines 39-44). -/
def le_benign : List Label :=
  ["embb".toList, "mtc".toList, "urllc".toList, "voip".toList]

/-- First index of the maximum of a non-empty list, 0 on the empty list:
`argmax` of numpy / `torch.argmax`, which return the first maximal index. -/
def listMaxD : ℚ → List ℚ → ℚ
  | a, [] => a
  | a, y :: ys => listMaxD (max a y) ys

def idxOfQ (a : ℚ) : List ℚ → ℕ
  | [] => 0
  | x :: xs => if x = a then 0 else idxOfQ a xs + 1

def argmaxIdx : List ℚ → ℕ
  | [] => 0
  | x :: xs => idxOfQ (listMaxD x xs) (x :: xs)

/-- The Stage-1 model artifact, as consumed by lines 214-225.  A neural
module either emits one scalar per row — the code applies `torch.sigmoid`
and thresholds the resulting malicious-probability at 0.5, so the model is
carried here as its per-row post-sigmoid probability — or a per-class score
row reduced with `argmax(dim=1)`; a direct (sklearn-style) classifier
already returns class labels from `.predict`. -/
inductive S1Model where
  | scalarNN (prob : List ℚ → ℚ)
  | vectorNN (scores : List ℚ → List ℚ)
  | direct (predict : List ℚ → ℕ)

/-- One row's Stage-1 binary output. -/
def s1RowPred : S1Model → List ℚ → ℕ
  | .scalarNN prob, x => if 1 / 2 < prob x then 1 else 0
  | .vectorNN scores, x => argmaxIdx (scores x)
  | .direct predict, x => predict x

/-- `vocab[pred_enc[0]]`: Python list indexing raises `IndexError` when out
of range. -/
def decodeAt (l : List Label) (i : ℕ) : Except PyErr Label :=
  if h : i < l.length then .ok (l.get ⟨i, h⟩) else .error .indexError

/-- The Stage-2 refinement of one row (lines 242-269): the benign model and
vocabulary when Stage 1 said 0, otherwise the malicious ones.  A Stage-2
artifact is carried as its per-row class-index function (`argmax` of a
neural module's scores or a direct `.predict`); a `none` artifact is the
disabled state left by a failed load, on which `.predict` raises
`AttributeError`. -/
def stage2Label (s2b s2m : Option (List ℚ → ℕ)) (pred : ℕ) (x : List ℚ) :
    Except PyErr Label :=
  if pred = 0 then
    match s2b with
    | none => .error .attributeError
    | some f => (decodeAt le_benign (f x)).map (fun s => "Benign-".toList ++ s)
  else
    match s2m with
    | none => .error .attributeError
    | some f => (decodeAt le_malicious (f x)).map (fun s => "Malicious-".toList ++ s)

/-- `collections.Counter(l).most_common(1)[0][0]` on a non-empty list: the
first-seen element with the (weakly) largest multiplicity.  `Counter` keys
appear in first-insertion order and `most_common` sorts stably by count, so
ties go to the earliest-seen element — i.e. the leftmost element of `l`
attaining the maximal count. -/
def firstMax (cnt : α → ℕ) : List α → Option α
  | [] => none
  | k :: ks =>
    match firstMax cnt ks with
    | none => some k
    | some b => if cnt b ≤ cnt k then some k else some b

def most_common1 [BEq α] (l : List α) : Option α :=
  firstMax (fun x => l.count x) l

/-- `p.split("-", 1)[1]`: the suffix after the first dash. -/
def subtypeAfterDash (p : Label) : Label :=
  (p.dropWhile (fun c => c ≠ '-')).drop 1

/-- `[m.split("-", 1)[1] for m in malicious_preds]` (lines 279-282): the
malicious-subtype strings of a UE's row labels, where
`p.startswith("Malicious-")` selects the malicious-labelled rows. -/
def malSubsOf (preds : List Label) : List Label :=
  (preds.filter (fun p => "Malicious-".toList.isPrefixOf p)).map subtypeAfterDash

/-- The benign-subtype strings of a UE's row labels (lines 286-288). -/
def benSubsOf (preds : List Label) : List Label :=
  (preds.filter (fun p => "Benign-".toList.isPrefixOf p)).map subtypeAfterDash

/-- The per-UE aggregation rule (lines 276-292) for one UE's ordered list of
row labels.  `most_common1 l = some c` exactly when the filtered list is
non-empty, matching the source's `if malicious_preds:` / `if benign_preds:`
guards around `Counter(subtypes).most_common(1)[0][0]`. -/
def verdictFor (preds : List Label) : Label :=
  match most_common1 (malSubsOf preds) with
  | some c => "Malicious-".toList ++ c
  | none =>
    match most_common1 (benSubsOf preds) with
    | some c => "Benign-".toList ++ c
    | none => "Unknown-NA".toList

/-- The labels of one UE's rows, in frame order
(`feature_data[feature_data['UE_ID'] == ue]['cascade_prediction']`). -/
def predsOf (rows : List (ℤ × Label)) (ue : ℤ) : List Label :=
  (rows.filter (fun p => p.1 == ue)).map Prod.snd

/-- `np.unique(ue_ids)`: sorted distinct values. -/
def uniqueSorted (l : List ℤ) : List ℤ :=
  sortLe (fun a b => decide (a ≤ b)) (dedupFirst l)

/-- `per_ue_status` (lines 276-292): one verdict per distinct UE. -/
def per_ue_status (rows : List (ℤ × Label)) : List (ℤ × Label) :=
  (uniqueSorted (rows.map Prod.fst)).map (fun ue => (ue, verdictFor (predsOf rows ue)))

/-- A feature row as the prediction stage consumes it: the `UE_ID` key and
the numeric feature vector (`X_np` row) left after dropping
`E2AgentID`/`UE_ID`/`Timestamp` and coercing to float. -/
structure FRow where
  ue : ℤ
  x : List ℚ

/-- Effectful `map` over the per-row Stage-2 loop (`for i, pred in
enumerate(binary_preds)`), stopping at the first raised exception. -/
def mapE (f : α → Except ε β) : List α → Except ε (List β)
  | [] => .ok []
  | a :: as =>
    match f a with
    | .error e => .error e
    | .ok b =>
      match mapE f as with
      | .error e => .error e
      | .ok bs => .ok (b :: bs)

/-- `KpmStyle5Xapp.predict_cascaded` (lines 186-297).  The three model slots
are `none` when the startup load failed (`__init__` lines 54-73 leave them
`None`); `isinstance(None, nn.Module)` is false, so the code then evaluates
`None.predict(...)`, which raises `AttributeError`.  On an empty frame the
function prints a warning and returns without verdicts.  The returned list
is the `per_ue_status` mapping the source prints. -/
def predict_cascaded (s1 : Option S1Model) (s2b s2m : Option (List ℚ → ℕ))
    (feature_data : List FRow) : Except PyErr (List (ℤ × Label)) :=
  if feature_data.isEmpty then .ok []
  else
    match s1 with
    | none => .error PyErr.attributeError
    | some m =>
      -- binary_preds = Stage-1 output per row; the Stage-2 loop walks
      -- (row, pred) pairs and builds final_preds, then the per-UE verdicts
      match mapE (fun rp => stage2Label s2b s2m rp.2 rp.1.x)
          (feature_data.zip (feature_data.map (fun r => s1RowPred m r.x))) with
      | .error e => .error e
      | .ok final_preds =>
        .ok (per_ue_status ((feature_data.zip final_preds).map (fun p => (p.1.ue, p.2))))

/-- The Stage-1 per-UE majority summary the source prints (lines 227-238);
it does not feed the final verdicts.  `"Malicious" if most_common else
"Benign"` tests Python truthiness, i.e. non-zero; `none` (an empty
prediction list) cannot occur for a UE drawn from `ue_ids`. -/
def per_ue_stage1 (ue_ids : List ℤ) (binary_preds : List ℕ) : List (ℤ × Option String) :=
  (uniqueSorted ue_ids).map (fun ue =>
    let ue_preds := ((ue_ids.zip binary_preds).filter (fun p => p.1 == ue)).map Prod.snd
    (ue, (most_common1 ue_preds).map (fun m => if m ≠ 0 then "Malicious" else "Benign")))

/-! ### Ingestion buffer (`subscription_callback`, lines 415-454) -/

/-- The effect of one `subscription_callback` invocation on `data_buffer`:
the rows extracted from the indication are appended one by one; when the
batch low-water mark `buffer_size` is reached a processing pass runs
(feature engineering + cascaded prediction, which never mutate the buffer),
and inside that branch the buffer is cleared once it holds at least 1440
records. -/
def subscription_buffer_after (buffer_size : ℕ) (data_buffer new_rows : List Row) :
    List Row :=
  let b := data_buffer ++ new_rows
  if buffer_size ≤ b.length then
    (if 1440 ≤ b.length then [] else b)
  else b

/-- `cleaned_dataset.copy()` (line 92): a deep copy; the method's in-place
operations (the `inplace=True` fillna) act on the copy, which is why the
caller's frame — and hence the buffer the batch was built from — is never
mutated.  On immutable values the copy is the identity. -/
def dfCopy (d : DF) : DF := d

/-- The batch frame built by `pd.DataFrame(self.data_buffer)` (line 442):
columns are the record keys in first-appearance order. -/
def dfOfRecords (buffer : List Row) : DF :=
  ⟨dedupFirst ((buffer.map (fun r => r.map Prod.fst)).flatten), buffer⟩

/-! ### Spec-side vocabularies (for refinement comparison only)

These two lists transcribe the claim's wording of the Stage-2 vocabularies;
the source-side lists are `le_benign` and `le_malicious` above. -/

def specBenignVocab : List Label :=
  ["embb".toList, "mtc".toList, "urllc".toList, "voip".toList]

def specMaliciousVocab : List Label :=
  ["parallel_tcp_flood".toList, "udp_fragmentation_flood".toList, "udp_flood".toList,
   "small_packet_flood".toList, "pulsing_udp_flood".toList, "parallel_udp_flood".toList]

/-! ### Helper lemmas -/

theorem firstMax_spec (cnt : α → ℕ) :
    ∀ l : List α, l ≠ [] → ∃ m, firstMax cnt l = some m ∧ m ∈ l ∧ ∀ x ∈ l, cnt x ≤ cnt m := by
  intro l
  induction l with
  | nil => intro h; exact absurd rfl h
  | cons k ks ih =>
    intro _
    by_cases hks : ks = []
    · subst hks
      exact ⟨k, rfl, List.mem_singleton.mpr rfl, by simp⟩
    · obtain ⟨b, hb, hbmem, hbmax⟩ := ih hks
      by_cases hle : cnt b ≤ cnt k
      · refine ⟨k, ?_, List.mem_cons_self k ks, ?_⟩
        · simp [firstMax, hb, hle]
        · intro x hx
          rcases List.mem_cons.mp hx with rfl | hx
          · exact le_refl _
          · exact le_trans (hbmax x hx) hle
      · refine ⟨b, ?_, List.mem_cons_of_mem k hbmem, ?_⟩
        · simp [firstMax, hb, hle]
        · intro x hx
          rcases List.mem_cons.mp hx with rfl | hx
          · exact le_of_not_le hle
          · exact hbmax x hx

theorem firstMax_isSome (cnt : α → ℕ) (k : α) (ks : List α) :
    firstMax cnt (k :: ks) ≠ none := by
  cases hb : firstMax cnt ks with
  | none => simp [firstMax, hb]
  | some b =>
    by_cases hle : cnt b ≤ cnt k <;> simp [firstMax, hb, hle]

theorem most_common1_spec [BEq α] (l : List α) (h : l ≠ []) :
    ∃ m, most_common1 l = some m ∧ m ∈ l ∧ ∀ x ∈ l, l.count x ≤ l.count m :=
  firstMax_spec (fun x => l.count x) l h

theorem mem_insertLe (le : α → α → Bool) (x y : α) :
    ∀ l : List α, (y ∈ insertLe le x l ↔ y = x ∨ y ∈ l) := by
  intro l
  induction l with
  | nil => simp [insertLe]
  | cons z zs ih =>
    by_cases h : le x z = true
    · simp only [insertLe, h, if_true, List.mem_cons]
    · simp only [insertLe, h, Bool.false_eq_true, if_false, List.mem_cons, ih]
      tauto

theorem mem_sortLe (le : α → α → Bool) (y : α) :
    ∀ l : List α, (y ∈ sortLe le l ↔ y ∈ l) := by
  intro l
  induction l with
  | nil => simp [sortLe]
  | cons z zs ih => simp [sortLe, mem_insertLe, ih]

theorem mem_dedupFirst [DecidableEq α] (y : α) :
    ∀ l : List α, (y ∈ dedupFirst l ↔ y ∈ l) := by
  intro l
  induction l with
  | nil => simp [dedupFirst]
  | cons z zs ih =>
    simp only [dedupFirst, List.mem_cons, List.mem_filter, ih, decide_eq_true_eq]
    by_cases h : y = z <;> simp [h]

theorem mapE_ok_length (f : α → Except ε β) :
    ∀ (l : List α) (out : List β), mapE f l = .ok out → out.length = l.length := by
  intro l
  induction l with
  | nil => intro out h; cases h; rfl
  | cons a as ih =>
    intro out h
    rw [mapE] at h
    cases hf : f a with
    | error e => rw [hf] at h; exact absurd h (by simp)
    | ok b =>
      rw [hf] at h
      cases hm : mapE f as with
      | error e => rw [hm] at h; exact absurd h (by simp)
      | ok bs =>
        rw [hm] at h
        cases h
        simp [ih bs hm]

theorem mapE_ok_mem (f : α → Except ε β) :
    ∀ (l : List α) (out : List β), mapE f l = .ok out →
      ∀ b ∈ out, ∃ a ∈ l, f a = .ok b := by
  intro l
  induction l with
  | nil => intro out h; cases h; simp
  | cons a as ih =>
    intro out h
    rw [mapE] at h
    cases hf : f a with
    | error e => rw [hf] at h; exact absurd h (by simp)
    | ok b0 =>
      rw [hf] at h
      cases hm : mapE f as with
      | error e => rw [hm] at h; exact absurd h (by simp)
      | ok bs =>
        rw [hm] at h
        cases h
        intro b hb
        rcases List.mem_cons.mp hb with rfl | hb
        · exact ⟨a, List.mem_cons_self a as, hf⟩
        · obtain ⟨a', ha', hfa'⟩ := ih bs hm b hb
          exact ⟨a', List.mem_cons_of_mem a ha', hfa'⟩

theorem isPrefixOf_append (p c : List Char) : p.isPrefixOf (p ++ c) = true := by
  induction p with
  | nil => simp [List.isPrefixOf]
  | cons a as ih => simp [List.isPrefixOf, ih]

theorem benign_not_prefix_of_malicious (c : List Char) :
    ("Benign-".toList.isPrefixOf ("Malicious-".toList ++ c)) = false := by
  have h1 : "Benign-".toList = 'B' :: "enign-".toList := rfl
  have h2 : "Malicious-".toList = 'M' :: "alicious-".toList := rfl
  rw [h1, h2]
  simp [List.isPrefixOf]

theorem malicious_append_ne_unknown (c : List Char) :
    ("Malicious-".toList ++ c) ≠ "Unknown-NA".toList := by
  intro h
  have h1 : ("Malicious-".toList ++ c).head? = some 'M' := rfl
  rw [h] at h1
  exact absurd h1 (by decide)

theorem benign_append_ne_unknown (c : List Char) :
    ("Benign-".toList ++ c) ≠ "Unknown-NA".toList := by
  intro h
  have h1 : ("Benign-".toList ++ c).head? = some 'B' := rfl
  rw [h] at h1
  exact absurd h1 (by decide)

theorem filterMap_num_map (l : List ℚ) :
    (l.map Cell.num).filterMap
      (fun c => match c with | .num q => some q | _ => none) = l := by
  induction l with
  | nil => rfl
  | cons a as ih => simp [List.filterMap_cons, ih]

theorem windowVals_map_num (qs : List ℚ) (i : ℕ) :
    windowVals 5 (qs.map .num) i = (qs.take (i + 1)).drop (i + 1 - 5) := by
  unfold windowVals
  rw [← List.map_take, ← List.map_drop, filterMap_num_map]

/-- Epsilon-guarded float division of finite non-negative operands is
finite: the denominator `b + 1e-5` is strictly positive. -/
theorem cellDiv_eps_num (a b : ℚ) (hb : 0 ≤ b) :
    ∃ q, cellDiv (.num a) (cellAdd (.num b) (.num epsilon)) = .num q := by
  have he : (0 : ℚ) < epsilon := by norm_num [epsilon]
  have h : (0 : ℚ) < b + epsilon := by linarith
  exact ⟨a / (b + epsilon), by simp [cellDiv, cellAdd, h.ne']⟩

/-! ### Concrete sample inputs -/

/-- One buffered record, as `subscription_callback` builds it (lines
426-434): timestamp, agent and UE identity, then each configured metric. -/
def sampleRow : Row :=
  [("Timestamp", .num (1700000000 * 10 ^ 9)), ("E2AgentID", .str "gnb1"), ("UE_ID", .num 0)]
    ++ default_metric_names.map (fun m => (m, Cell.num 2))

/-- A one-record batch frame (`pd.DataFrame(self.data_buffer)`). -/
def sample_record_df : DF :=
  ⟨["Timestamp", "E2AgentID", "UE_ID"] ++ default_metric_names, [sampleRow]⟩

/-! ### Claims -/

/-- C1.  The claim asserts that the transform's output is reindexed onto
FeatureSchema (the classifier's expected feature list) before rows reach
the classifier.  In the source, `self.selected_features` is assigned only
once — `None`, in `__init__` line 26 — and the feature lists loaded with
the model artifacts (`s1_features`, …) are never wired into it, so
`final_df.reindex(columns=None, fill_value=0.0)` at line 181 changes
nothing: evaluated on a concrete one-record batch, the returned table
carries the full raw computed layout `rolledCols` (every `_mean`/`_std`
column plus the `E2AgentID`/`UE_ID`/`Timestamp`/`Timestamp_epoch`
identifier columns), not any classifier schema; and reindexing with `none`
is the identity on every frame. -/
theorem c1_transform_output_is_unaligned :
    (feature_engineer_network_data default_metric_names none sample_record_df).map DF.cols
      = .ok rolledCols ∧
    (∀ d : DF, reindex_columns none d = d) :=
  ⟨rfl, fun _ => rfl⟩

/-- C4.  With all three model slots left `None` by a failed startup load,
`predict_cascaded` on a non-empty feature batch evaluates
`self.s1_model.predict(...)` on `None` and raises `AttributeError` to the
caller — it is not the logged no-op the claim describes.  Only the empty
batch takes the warn-and-return path without verdicts. -/
theorem c4_predict_raises_when_models_unloaded :
    predict_cascaded none none none [⟨0, [0]⟩] = .error .attributeError ∧
    predict_cascaded none none none [] = .ok [] :=
  ⟨rfl, rfl⟩

/-- C5 counterexample.  On a concrete one-record batch, the transform's
`RRU.PrbUsedUl_std` column — a `_std` column of the output — is NaN:
pandas' sample standard deviation (`ddof=1`) of a single-observation
window is undefined even with `min_periods=1`, refuting the claim that no
NaN appears in any `_mean` or `_std` column. -/
theorem c5_counterexample_std_nan :
    (feature_engineer_network_data default_metric_names none sample_record_df).map
      (fun d => d.rows.map (fun r => rowGet r "RRU.PrbUsedUl_std")) = .ok [Cell.nan] :=
  rfl

/-- C5 as amended.  For the first sample of a group, the rolling mean
equals that sample's own value and is not NaN; the rolling standard
deviation over the single-sample window is NaN (pandas `ddof=1`), and is
numeric from the second sample of a group onwards when the rolled values
are numeric. -/
theorem c5_first_window_mean_value_std_nan :
    ∀ (x : ℚ) (rest : List Cell) (qs : List ℚ) (i : ℕ),
      rollMeanAt 5 (.num x :: rest) 0 = .num x ∧
      rollStdAt 5 (.num x :: rest) 0 = .nan ∧
      (i < qs.length →
        (∃ q, rollMeanAt 5 (qs.map .num) i = .num q) ∧
        (1 ≤ i → ∃ q, rollStdAt 5 (qs.map .num) i = .num q)) := by
  intro x rest qs i
  refine ⟨?_, ?_, ?_⟩
  · simp [rollMeanAt, windowVals, List.filterMap]
  · simp [rollStdAt, windowVals, List.filterMap]
  · intro hi
    have hlen : (windowVals 5 (qs.map .num) i).length = i + 1 - (i + 1 - 5) := by
      rw [windowVals_map_num, List.length_drop, List.length_take]
      omega
    constructor
    · simp only [rollMeanAt]
      rw [if_neg (by omega)]
      exact ⟨_, rfl⟩
    · intro h1
      simp only [rollStdAt]
      rw [if_neg (by omega)]
      exact ⟨_, rfl⟩

theorem c5_witness :
    rollMeanAt 5 [.num 3] 0 = .num 3 ∧
    rollStdAt 5 [.num 3] 0 = .nan ∧
    (∃ q, rollMeanAt 5 ([1, 2].map .num) 1 = .num q) ∧
    (∃ q, rollStdAt 5 ([1, 2].map .num) 1 = .num q) := by
  have h := c5_first_window_mean_value_std_nan 3 [] [1, 2] 1
  exact ⟨h.1, h.2.1, (h.2.2 (by norm_num)).1, (h.2.2 (by norm_num)).2 (by norm_num)⟩

/-- C6.  Every derived ratio/efficiency feature — the two PRB utilization
ratios, the two PRB efficiencies, the throughput asymmetry and the two
per-volume throughputs — is a finite number on finite non-negative metric
inputs, because every denominator carries the additive guard
`epsilon = 1e-5` and is therefore strictly positive. -/
theorem c6_ratio_features_finite :
    ∀ (usedDl availDl usedUl availUl thpUl thpDl volUl volDl : ℚ),
      0 ≤ usedDl → 0 ≤ availDl → 0 ≤ usedUl → 0 ≤ availUl →
      0 ≤ thpUl → 0 ≤ thpDl → 0 ≤ volUl → 0 ≤ volDl →
      (∃ q, prbUtilizationRatioDl (.num usedDl) (.num availDl) = .num q) ∧
      (∃ q, prbUtilizationRatioUl (.num usedUl) (.num availUl) = .num q) ∧
      (∃ q, ulPrbEfficiency (.num thpUl) (.num usedUl) = .num q) ∧
      (∃ q, dlPrbEfficiency (.num thpDl) (.num usedDl) = .num q) ∧
      (∃ q, throughputAsymmetry (.num thpDl) (.num thpUl) = .num q) ∧
      (∃ q, ulThroughputPerVolume (.num thpUl) (.num volUl) = .num q) ∧
      (∃ q, dlThroughputPerVolume (.num thpDl) (.num volDl) = .num q) := by
  intro usedDl availDl usedUl availUl thpUl thpDl volUl volDl h1 h2 h3 h4 h5 h6 h7 h8
  exact ⟨cellDiv_eps_num _ _ h2, cellDiv_eps_num _ _ h4, cellDiv_eps_num _ _ h3,
    cellDiv_eps_num _ _ h1, cellDiv_eps_num _ _ h5, cellDiv_eps_num _ _ h7,
    cellDiv_eps_num _ _ h8⟩

theorem c6_witness :
    (∃ q, prbUtilizationRatioDl (.num 0) (.num 0) = .num q) ∧
    (∃ q, prbUtilizationRatioUl (.num 0) (.num 0) = .num q) ∧
    (∃ q, ulPrbEfficiency (.num 0) (.num 0) = .num q) ∧
    (∃ q, dlPrbEfficiency (.num 0) (.num 0) = .num q) ∧
    (∃ q, throughputAsymmetry (.num 0) (.num 0) = .num q) ∧
    (∃ q, ulThroughputPerVolume (.num 0) (.num 0) = .num q) ∧
    (∃ q, dlThroughputPerVolume (.num 0) (.num 0) = .num q) :=
  c6_ratio_features_finite 0 0 0 0 0 0 0 0 le_rfl le_rfl le_rfl le_rfl
    le_rfl le_rfl le_rfl le_rfl

/-- C7.  The callback's buffer policy: as long as the buffer (after the
call's appends) holds fewer than 1440 records, every appended record is
retained — `append` drops nothing; and on the call whose processing pass
runs (the batch low-water mark `buffer_size` is reached) while the buffer
holds at least the 1440-record hard cap, the buffer ends empty. -/
theorem c7_buffer_never_drops_until_hard_cap :
    ∀ (buffer_size : ℕ) (buf new : List Row),
      ((buf ++ new).length < 1440 →
        subscription_buffer_after buffer_size buf new = buf ++ new) ∧
      (buffer_size ≤ (buf ++ new).length → 1440 ≤ (buf ++ new).length →
        subscription_buffer_after buffer_size buf new = []) := by
  intro bs buf new
  constructor
  · intro h
    simp only [subscription_buffer_after]
    by_cases hbs : bs ≤ (buf ++ new).length
    · rw [if_pos hbs, if_neg (by omega)]
    · rw [if_neg hbs]
  · intro h1 h2
    simp only [subscription_buffer_after]
    rw [if_pos h1, if_pos h2]

theorem c7_witness :
    subscription_buffer_after 2 [] (List.replicate 1440 []) = [] ∧
    subscription_buffer_after 2 [] [[], []] = [] ++ [[], []] := by
  have hlen : (([] : List Row) ++ List.replicate 1440 ([] : Row)).length = 1440 := by
    rw [List.nil_append, List.length_replicate]
  refine ⟨(c7_buffer_never_drops_until_hard_cap 2 [] (List.replicate 1440 [])).2 ?_ ?_,
    (c7_buffer_never_drops_until_hard_cap 2 [] [[], []]).1 (by norm_num)⟩
  · rw [hlen]; norm_num
  · exact hlen.ge

/-- C8 counterexample.  An empty record sequence materialises as the
column-less frame `pd.DataFrame([])`, on which the transform's very first
step, reading `df['Timestamp']`, raises `KeyError` — it does not return an
empty output. -/
theorem c8_counterexample_empty_raises :
    feature_engineer_network_data default_metric_names none ⟨[], []⟩
      = .error (.keyError "Timestamp") :=
  rfl

/-- C8 as amended.  On a zero-row input that still carries the expected
columns, the transform takes the `if not final_dfs` guard (lines 150-151)
and returns the empty frame `pd.DataFrame()` without error, for any value
of the schema field; but a truly empty input sequence yields a column-less
frame on which the column accesses raise `KeyError`
(see the counterexample). -/
theorem c8_zero_row_batch_yields_empty :
    ∀ sel, feature_engineer_network_data default_metric_names sel
      ⟨["Timestamp", "E2AgentID", "UE_ID"] ++ default_metric_names, []⟩ = .ok ⟨[], []⟩ :=
  fun _ => rfl

/-- C9.  The transform is a deterministic, side-effect-free function of its
input: its result depends only on the batch frame (and the fixed
`metric_names`/`selected_features` fields), so equal inputs give equal
outputs — in particular the two back-to-back invocations on the same
buffer in `subscription_callback` (lines 444 and 449) agree — and the
caller's frame survives the call unchanged, because the method's only
in-place mutation (`fillna(..., inplace=True)`) is applied to the
`.copy()` taken at line 92. -/
theorem c9_transform_deterministic_and_pure :
    ∀ (mn : List String) (sel : Option (List String)) (d d' : DF), d = d' →
      feature_engineer_network_data mn sel d = feature_engineer_network_data mn sel d' ∧
      dfCopy d = d := by
  intro mn sel d d' h
  exact ⟨h ▸ rfl, rfl⟩

theorem c9_witness :
    feature_engineer_network_data default_metric_names none sample_record_df
      = feature_engineer_network_data default_metric_names none sample_record_df ∧
    dfCopy sample_record_df = sample_record_df :=
  c9_transform_deterministic_and_pure default_metric_names none
    sample_record_df sample_record_df rfl

/-! ### argmax machinery for C2 -/

theorem listMaxD_le (l : List ℚ) : ∀ a : ℚ, a ≤ listMaxD a l ∧ ∀ y ∈ l, y ≤ listMaxD a l := by
  induction l with
  | nil => intro a; exact ⟨le_refl a, by simp⟩
  | cons y ys ih =>
    intro a
    have h := ih (max a y)
    refine ⟨le_trans (le_max_left a y) h.1, ?_⟩
    intro z hz
    rcases List.mem_cons.mp hz with rfl | hz
    · exact le_trans (le_max_right a z) h.1
    · exact h.2 z hz

theorem listMaxD_mem (l : List ℚ) : ∀ a : ℚ, listMaxD a l = a ∨ listMaxD a l ∈ l := by
  induction l with
  | nil => intro a; exact Or.inl rfl
  | cons y ys ih =>
    intro a
    rcases ih (max a y) with h | h
    · rcases max_choice a y with hm | hm
      · exact Or.inl (by rw [listMaxD, h, hm])
      · refine Or.inr ?_
        rw [listMaxD, h, hm]
        exact List.mem_cons_self y ys
    · exact Or.inr (List.mem_cons_of_mem y (by rw [listMaxD]; exact h))

theorem idxOfQ_spec (a : ℚ) :
    ∀ l : List ℚ, a ∈ l → ∃ hlt : idxOfQ a l < l.length, l.get ⟨idxOfQ a l, hlt⟩ = a := by
  intro l
  induction l with
  | nil => intro h; simp at h
  | cons x xs ih =>
    intro h
    by_cases hxa : x = a
    · exact ⟨by simp [idxOfQ, hxa], by simp [idxOfQ, hxa]⟩
    · have hxs : a ∈ xs := by
        rcases List.mem_cons.mp h with rfl | h
        · exact absurd rfl hxa
        · exact h
      obtain ⟨hlt, hget⟩ := ih hxs
      refine ⟨?_, ?_⟩
      · simp only [idxOfQ, hxa, if_false, List.length_cons]
        omega
      · simp only [idxOfQ, hxa, if_false]
        simpa using hget

/-- `argmax` returns a valid index whose entry is a maximum (numpy and
torch return the first such index). -/
theorem argmaxIdx_spec (l : List ℚ) (h : l ≠ []) :
    ∃ hlt : argmaxIdx l < l.length, ∀ y ∈ l, y ≤ l.get ⟨argmaxIdx l, hlt⟩ := by
  cases l with
  | nil => exact absurd rfl h
  | cons x xs =>
    have hmem : listMaxD x xs ∈ x :: xs := by
      rcases listMaxD_mem xs x with h1 | h1
      · rw [h1]; exact List.mem_cons_self x xs
      · exact List.mem_cons_of_mem x h1
    obtain ⟨hlt, hget⟩ := idxOfQ_spec (listMaxD x xs) (x :: xs) hmem
    refine ⟨hlt, ?_⟩
    intro y hy
    have hg2 : (x :: xs).get ⟨argmaxIdx (x :: xs), hlt⟩ = listMaxD x xs := hget
    rw [hg2]
    rcases List.mem_cons.mp hy with rfl | hy
    · exact (listMaxD_le xs y).1
    · exact (listMaxD_le xs x).2 y hy

/-- C2.  Per-row cascade semantics: a scalar Stage-1 output (its post-
sigmoid malicious-probability) yields 1 exactly when the probability
exceeds 0.5, a score-vector Stage-1 model is reduced by argmax (a valid
maximising index); and with Stage-1 output 0 the row label is
`"Benign-" ++` the benign vocabulary at the Stage-2 class index, while
with Stage-1 output 1 it is `"Malicious-" ++` the malicious vocabulary at
the Stage-2 class index — where, for every index within the claim's
six-element malicious vocabulary (and four-element benign vocabulary), the
source's decoding lists agree with the claim's. -/
theorem c2_row_cascade_semantics :
    ∀ (prob : List ℚ → ℚ) (scores : List ℚ → List ℚ) (x : List ℚ) (benI malI : ℕ),
      benI < 4 → malI < 6 →
      (s1RowPred (.scalarNN prob) x = 1 ↔ 1 / 2 < prob x) ∧
      (s1RowPred (.scalarNN prob) x = 0 ↔ ¬ 1 / 2 < prob x) ∧
      (scores x ≠ [] →
        ∃ hlt : argmaxIdx (scores x) < (scores x).length,
          s1RowPred (.vectorNN scores) x = argmaxIdx (scores x) ∧
          ∀ y ∈ scores x, y ≤ (scores x).get ⟨argmaxIdx (scores x), hlt⟩) ∧
      stage2Label (some fun _ => benI) (some fun _ => malI) 0 x
        = .ok ("Benign-".toList ++ specBenignVocab.getD benI []) ∧
      stage2Label (some fun _ => benI) (some fun _ => malI) 1 x
        = .ok ("Malicious-".toList ++ specMaliciousVocab.getD malI []) := by
  intro prob scores x benI malI hb hm
  refine ⟨?_, ?_, ?_, ?_, ?_⟩
  · by_cases h : 1 / 2 < prob x <;> simp [s1RowPred, h]
  · by_cases h : 1 / 2 < prob x <;> simp [s1RowPred, h]
  · intro h
    obtain ⟨hlt, hmax⟩ := argmaxIdx_spec (scores x) h
    exact ⟨hlt, rfl, hmax⟩
  · interval_cases benI <;> rfl
  · interval_cases malI <;> rfl

theorem c2_witness :
    (s1RowPred (.scalarNN fun _ => 3 / 4) [0] = 1 ↔ (1 : ℚ) / 2 < 3 / 4) ∧
    stage2Label (some fun _ => 1) (some fun _ => 2) 0 [0]
      = .ok ("Benign-".toList ++ specBenignVocab.getD 1 []) ∧
    stage2Label (some fun _ => 1) (some fun _ => 2) 1 [0]
      = .ok ("Malicious-".toList ++ specMaliciousVocab.getD 2 []) := by
  have h := c2_row_cascade_semantics (fun _ => 3 / 4) (fun _ => [1, 5, 2]) [0] 1 2
    (by norm_num) (by norm_num)
  exact ⟨h.1, h.2.2.2.1, h.2.2.2.2⟩

/-! ### Aggregation lemmas for C3 and C10 -/

theorem most_common1_eq_none [BEq α] {l : List α} (h : most_common1 l = none) :
    l = [] := by
  cases l with
  | nil => rfl
  | cons k ks => exact absurd h (firstMax_isSome _ k ks)

/-- When a UE has a malicious-labelled row, its verdict is
`"Malicious-" ++ c` with `c` a maximal-count malicious subtype. -/
theorem verdictFor_of_malicious (preds : List Label)
    (h : ∃ p ∈ preds, "Malicious-".toList.isPrefixOf p) :
    ∃ c, verdictFor preds = "Malicious-".toList ++ c ∧ c ∈ malSubsOf preds ∧
      ∀ s ∈ malSubsOf preds, (malSubsOf preds).count s ≤ (malSubsOf preds).count c := by
  obtain ⟨p, hp, hpref⟩ := h
  have hmem : p ∈ preds.filter (fun p => "Malicious-".toList.isPrefixOf p) :=
    List.mem_filter.mpr ⟨hp, hpref⟩
  have hne : malSubsOf preds ≠ [] :=
    List.ne_nil_of_mem (List.mem_map_of_mem subtypeAfterDash hmem)
  obtain ⟨c, hc, hcmem, hcmax⟩ := most_common1_spec _ hne
  exact ⟨c, by simp [verdictFor, hc], hcmem, hcmax⟩

/-- When a UE has no malicious-labelled row but a benign-labelled one, its
verdict is `"Benign-" ++ c` with `c` a maximal-count benign subtype. -/
theorem verdictFor_of_benign (preds : List Label)
    (hno : ∀ p ∈ preds, ¬ "Malicious-".toList.isPrefixOf p)
    (hb : ∃ p ∈ preds, "Benign-".toList.isPrefixOf p) :
    ∃ c, verdictFor preds = "Benign-".toList ++ c ∧ c ∈ benSubsOf preds ∧
      ∀ s ∈ benSubsOf preds, (benSubsOf preds).count s ≤ (benSubsOf preds).count c := by
  have hfil : preds.filter (fun p => "Malicious-".toList.isPrefixOf p) = [] := by
    rw [List.filter_eq_nil_iff]
    intro p hp
    simpa using hno p hp
  have hnone : most_common1 (malSubsOf preds) = none := by
    rw [malSubsOf, hfil]
    rfl
  obtain ⟨p, hp, hpref⟩ := hb
  have hmem : p ∈ preds.filter (fun p => "Benign-".toList.isPrefixOf p) :=
    List.mem_filter.mpr ⟨hp, hpref⟩
  have hne : benSubsOf preds ≠ [] :=
    List.ne_nil_of_mem (List.mem_map_of_mem subtypeAfterDash hmem)
  obtain ⟨c, hc, hcmem, hcmax⟩ := most_common1_spec _ hne
  exact ⟨c, by simp [verdictFor, hnone, hc], hcmem, hcmax⟩

/-- C3.  For every per-row `(entity_id, label)` sequence and every entity
appearing in it, the aggregation emits an entry for that entity; if any of
its rows is `Malicious-*` the verdict is `Malicious-<c>` where `c` attains
the maximal count among the entity's malicious-row subtypes (so a mixed
Benign/Malicious row set yields a `Malicious-` verdict, never a `Benign-`
one); otherwise, if any row is `Benign-*`, the verdict is `Benign-<c>` with
`c` of maximal count among the benign-row subtypes. -/
theorem c3_entity_verdict_aggregation :
    ∀ (rows : List (ℤ × Label)) (ue : ℤ), ue ∈ rows.map Prod.fst →
      (ue, verdictFor (predsOf rows ue)) ∈ per_ue_status rows ∧
      ((∃ p ∈ predsOf rows ue, "Malicious-".toList.isPrefixOf p) →
        (∃ c, verdictFor (predsOf rows ue) = "Malicious-".toList ++ c ∧
          c ∈ malSubsOf (predsOf rows ue) ∧
          ∀ s ∈ malSubsOf (predsOf rows ue),
            (malSubsOf (predsOf rows ue)).count s ≤ (malSubsOf (predsOf rows ue)).count c) ∧
        "Malicious-".toList.isPrefixOf (verdictFor (predsOf rows ue)) ∧
        ¬ "Benign-".toList.isPrefixOf (verdictFor (predsOf rows ue))) ∧
      ((∀ p ∈ predsOf rows ue, ¬ "Malicious-".toList.isPrefixOf p) →
       (∃ p ∈ predsOf rows ue, "Benign-".toList.isPrefixOf p) →
        ∃ c, verdictFor (predsOf rows ue) = "Benign-".toList ++ c ∧
          c ∈ benSubsOf (predsOf rows ue) ∧
          ∀ s ∈ benSubsOf (predsOf rows ue),
            (benSubsOf (predsOf rows ue)).count s ≤ (benSubsOf (predsOf rows ue)).count c) := by
  intro rows ue hue
  refine ⟨?_, ?_, ?_⟩
  · have h1 : ue ∈ uniqueSorted (rows.map Prod.fst) := by
      unfold uniqueSorted
      rw [mem_sortLe, mem_dedupFirst]
      exact hue
    exact List.mem_map_of_mem (fun u => (u, verdictFor (predsOf rows u))) h1
  · intro hmal
    obtain ⟨c, hveq, hcmem, hcmax⟩ := verdictFor_of_malicious _ hmal
    refine ⟨⟨c, hveq, hcmem, hcmax⟩, ?_, ?_⟩
    · rw [hveq]
      exact isPrefixOf_append _ _
    · rw [hveq]
      simp [benign_not_prefix_of_malicious c]
  · intro hno hben
    exact verdictFor_of_benign _ hno hben

/-- A mixed batch for entity 7: two malicious rows, one benign row. -/
def c3SampleRows : List (ℤ × Label) :=
  [(7, "Malicious-udp_flood".toList), (7, "Benign-embb".toList),
   (7, "Malicious-udp_flood".toList)]

theorem c3_witness :
    (7, verdictFor (predsOf c3SampleRows 7)) ∈ per_ue_status c3SampleRows ∧
    (∃ c, verdictFor (predsOf c3SampleRows 7) = "Malicious-".toList ++ c ∧
      c ∈ malSubsOf (predsOf c3SampleRows 7) ∧
      ∀ s ∈ malSubsOf (predsOf c3SampleRows 7),
        (malSubsOf (predsOf c3SampleRows 7)).count s
          ≤ (malSubsOf (predsOf c3SampleRows 7)).count c) ∧
    "Malicious-".toList.isPrefixOf (verdictFor (predsOf c3SampleRows 7)) ∧
    ¬ "Benign-".toList.isPrefixOf (verdictFor (predsOf c3SampleRows 7)) := by
  have h := c3_entity_verdict_aggregation c3SampleRows 7 (by decide)
  have h2 := h.2.1 (by decide)
  exact ⟨h.1, h2.1, h2.2.1, h2.2.2⟩

/-! ### C10: every entity in a successfully classified batch gets a
prefixed verdict -/

/-- Every label the Stage-2 loop can emit carries one of the two cascade
prefixes, by construction (lines 256 and 269). -/
theorem stage2Label_ok_shape (s2b s2m : List ℚ → ℕ) (pred : ℕ) (x : List ℚ) (v : Label)
    (h : stage2Label (some s2b) (some s2m) pred x = .ok v) :
    (∃ s, v = "Benign-".toList ++ s) ∨ (∃ s, v = "Malicious-".toList ++ s) := by
  simp only [stage2Label] at h
  by_cases hp : pred = 0
  · rw [if_pos hp] at h
    cases hd : decodeAt le_benign (s2b x) with
    | error e => rw [hd] at h; simp [Except.map] at h
    | ok s =>
      rw [hd] at h
      simp only [Except.map] at h
      cases h
      exact Or.inl ⟨s, rfl⟩
  · rw [if_neg hp] at h
    cases hd : decodeAt le_malicious (s2m x) with
    | error e => rw [hd] at h; simp [Except.map] at h
    | ok s =>
      rw [hd] at h
      simp only [Except.map] at h
      cases h
      exact Or.inr ⟨s, rfl⟩

theorem map_fst_zip_ue :
    ∀ (l : List FRow) (f : List Label), f.length = l.length →
      ((l.zip f).map (fun p => (p.1.ue, p.2))).map Prod.fst = l.map FRow.ue := by
  intro l
  induction l with
  | nil => intro f h; rfl
  | cons a as ih =>
    intro f h
    cases f with
    | nil => simp at h
    | cons b bs =>
      simp only [List.zip_cons_cons, List.map_cons]
      rw [ih bs (by simpa using h)]

/-- C10.  When the cascade runs with all three models loaded and returns
verdicts for a non-empty batch, every UE with at least one row in the
batch receives a verdict prefixed `Benign-` or `Malicious-`; the
`Unknown-NA` branch of the aggregation is unreachable for such a UE,
because every per-row cascade label carries one of the two prefixes. -/
theorem c10_every_entity_gets_prefixed_verdict :
    ∀ (s1m : S1Model) (s2b s2m : List ℚ → ℕ) (rows : List FRow)
      (verdicts : List (ℤ × Label)),
      rows ≠ [] →
      predict_cascaded (some s1m) (some s2b) (some s2m) rows = .ok verdicts →
      ∀ r ∈ rows, ∃ v, (r.ue, v) ∈ verdicts ∧
        ("Benign-".toList.isPrefixOf v ∨ "Malicious-".toList.isPrefixOf v) ∧
        v ≠ "Unknown-NA".toList := by
  intro s1m s2b s2m rows verdicts hne hpred r hr
  simp only [predict_cascaded] at hpred
  rw [if_neg (by simp [List.isEmpty_iff, hne])] at hpred
  cases hm : mapE (fun rp => stage2Label (some s2b) (some s2m) rp.2 rp.1.x)
      (rows.zip (rows.map (fun r => s1RowPred s1m r.x))) with
  | error e => rw [hm] at hpred; exact absurd hpred (by simp)
  | ok fps =>
    rw [hm] at hpred
    have hv : verdicts = per_ue_status ((rows.zip fps).map (fun p => (p.1.ue, p.2))) := by
      cases hpred; rfl
    have hlen : fps.length = rows.length := by
      have h1 := mapE_ok_length _ _ _ hm
      rw [List.length_zip] at h1
      simpa using h1
    have hfst : ((rows.zip fps).map (fun p => (p.1.ue, p.2))).map Prod.fst
        = rows.map FRow.ue := map_fst_zip_ue rows fps hlen
    have hue : r.ue ∈ ((rows.zip fps).map (fun p => (p.1.ue, p.2))).map Prod.fst := by
      rw [hfst]
      exact List.mem_map_of_mem FRow.ue hr
    have hmem1 : r.ue ∈ uniqueSorted
        (((rows.zip fps).map (fun p => (p.1.ue, p.2))).map Prod.fst) := by
      unfold uniqueSorted
      rw [mem_sortLe, mem_dedupFirst]
      exact hue
    have hventry := List.mem_map_of_mem
      (fun u => (u, verdictFor (predsOf ((rows.zip fps).map (fun p => (p.1.ue, p.2))) u))) hmem1
    have hpreds_ne : predsOf ((rows.zip fps).map (fun p => (p.1.ue, p.2))) r.ue ≠ [] := by
      obtain ⟨pair, hpair, heq⟩ := List.mem_map.mp hue
      exact List.ne_nil_of_mem (List.mem_map_of_mem Prod.snd
        (List.mem_filter.mpr ⟨hpair, by simp [heq]⟩))
    have hshape : ∀ p ∈ predsOf ((rows.zip fps).map (fun p => (p.1.ue, p.2))) r.ue,
        (∃ s, p = "Benign-".toList ++ s) ∨ (∃ s, p = "Malicious-".toList ++ s) := by
      intro p hp
      obtain ⟨pair, hpairmem, hpeq⟩ := List.mem_map.mp hp
      have hpair2 : pair ∈ (rows.zip fps).map (fun p => (p.1.ue, p.2)) :=
        (List.mem_filter.mp hpairmem).1
      obtain ⟨q, hq, hqeq⟩ := List.mem_map.mp hpair2
      have hq2 : q.2 ∈ fps := (List.of_mem_zip hq).2
      obtain ⟨a, ha, hfa⟩ := mapE_ok_mem _ _ _ hm q.2 hq2
      have hsh := stage2Label_ok_shape s2b s2m a.2 a.1.x q.2 hfa
      have hpq : p = q.2 := by rw [← hpeq, ← hqeq]
      rw [hpq]
      exact hsh
    cases hmc : most_common1 (malSubsOf
        (predsOf ((rows.zip fps).map (fun p => (p.1.ue, p.2))) r.ue)) with
    | some c =>
      have hveq : verdictFor (predsOf ((rows.zip fps).map (fun p => (p.1.ue, p.2))) r.ue)
          = "Malicious-".toList ++ c := by
        simp [verdictFor, hmc]
      refine ⟨_, by rw [hv]; exact hventry, ?_, ?_⟩
      · right; rw [hveq]; exact isPrefixOf_append _ _
      · rw [hveq]; exact malicious_append_ne_unknown c
    | none =>
      have hmalnil := most_common1_eq_none hmc
      have hnomal : ∀ p ∈ predsOf ((rows.zip fps).map (fun p => (p.1.ue, p.2))) r.ue,
          ¬ "Malicious-".toList.isPrefixOf p := by
        intro p hp hpref
        have hmm : p ∈ (predsOf ((rows.zip fps).map (fun p => (p.1.ue, p.2))) r.ue).filter
            (fun p => "Malicious-".toList.isPrefixOf p) := List.mem_filter.mpr ⟨hp, hpref⟩
        exact List.ne_nil_of_mem (List.mem_map_of_mem subtypeAfterDash hmm) hmalnil
      obtain ⟨p0, hp0⟩ := List.exists_mem_of_ne_nil _ hpreds_ne
      have hp0ben : "Benign-".toList.isPrefixOf p0 := by
        rcases hshape p0 hp0 with ⟨s, rfl⟩ | ⟨s, rfl⟩
        · exact isPrefixOf_append _ _
        · exact absurd (isPrefixOf_append _ s) (hnomal _ hp0)
      obtain ⟨c, hveq, _, _⟩ := verdictFor_of_benign _ hnomal ⟨p0, hp0, hp0ben⟩
      refine ⟨_, by rw [hv]; exact hventry, ?_, ?_⟩
      · left; rw [hveq]; exact isPrefixOf_append _ _
      · rw [hveq]; exact benign_append_ne_unknown c

theorem c10_witness :
    ∃ v, ((7 : ℤ), v) ∈ ([(7, "Malicious-udp_flood".toList)] : List (ℤ × Label)) ∧
      ("Benign-".toList.isPrefixOf v ∨ "Malicious-".toList.isPrefixOf v) ∧
      v ≠ "Unknown-NA".toList := by
  have h := c10_every_entity_gets_prefixed_verdict (.direct fun _ => 1) (fun _ => 0)
    (fun _ => 2) [⟨7, [1]⟩] [(7, "Malicious-udp_flood".toList)] (by simp) rfl
  exact h ⟨7, [1]⟩ (List.mem_singleton.mpr rfl)

end XApp
